import Mathlib

/-!
Verification development for the WGPUI immediate-mode UI core.

The definitions below are a shallow embedding of `src/ui.rs` (layout state
machine: node identity, node store, frame builder, fit/grow/position sizing,
finalize/emit) and `src/input_recorder.rs` (per-button mouse state with
double-click detection).

Modelling conventions:
* `f32` values (sizes, positions, paddings, gaps) are modelled as exact
  rationals `Q` (integer numerator, positive natural denominator, kept in
  lowest terms by every operation, so equal values have equal
  representations); arithmetic is exact, and the source's floating-point
  arithmetic agrees with it on the small concrete inputs used here.
* `NodeId(u64)` is modelled as `ℕ`, with `0` for `NodeId::NULL`.
* `Instant`/`Duration` are modelled as `ℕ` millisecond timestamps, passed
  explicitly where the source calls `Instant::now()`.
* Rust functions that can panic (`unwrap`, explicit `panic`) or loop without a
  structural bound are modelled in `Option`, returning `none` on a panic, with
  a fuel parameter bounding the unstructured `while` loops.
* `FxHashMap<NodeId, Node>` is modelled as an association list with
  most-recent-insert-first lookup (`NodeMap`); `insert` replaces any previous
  binding, as `HashMap::insert` does.
* The `FxHasher` of the `rustc-hash` crate is external to this repository.
  Following the spec ("deterministic hashing of a scope stack + a
  caller-supplied label into a stable 64-bit node identifier"), it is modelled
  as an abstract function parameter reduced modulo `2 ^ 64`.
-/

namespace WGPUI

/-- Exact rational scalar standing in for `f32`: an integer numerator and a
natural denominator.  All operations normalise to lowest terms with a positive
denominator, so equal values are structurally equal and `decide`/`rfl` can
evaluate them. -/
structure Q where
  num : ℤ
  den : ℕ
  deriving DecidableEq, Repr

/-- Normalise a fraction to lowest terms (denominator `0` is never produced by
the operations below; it is mapped to `0` for totality). -/
def Q.norm (n : ℤ) (d : ℕ) : Q :=
  if d = 0 then ⟨0, 1⟩
  else
    let g := Int.gcd n (Int.ofNat d)
    ⟨Int.ediv n (Int.ofNat g), d / g⟩

instance : OfNat Q n := ⟨⟨Int.ofNat n, 1⟩⟩

/-- Addition of exact scalars. -/
def Q.add (a b : Q) : Q := Q.norm (a.num * b.den + b.num * a.den) (a.den * b.den)

/-- Subtraction of exact scalars. -/
def Q.sub (a b : Q) : Q := Q.norm (a.num * b.den - b.num * a.den) (a.den * b.den)

/-- Multiplication of exact scalars. -/
def Q.mul (a b : Q) : Q := Q.norm (a.num * b.num) (a.den * b.den)

/-- Division of exact scalars (division by zero yields `0`; never reached by
the modelled code, which guards the divisor). -/
def Q.div (a b : Q) : Q :=
  Q.norm (a.num * Int.sign b.num * b.den) (a.den * b.num.natAbs)

instance : Add Q := ⟨Q.add⟩

instance : Sub Q := ⟨Q.sub⟩

instance : Mul Q := ⟨Q.mul⟩

instance : Div Q := ⟨Q.div⟩

instance : LT Q := ⟨fun a b => a.num * b.den < b.num * a.den⟩

instance : LE Q := ⟨fun a b => a.num * b.den ≤ b.num * a.den⟩

instance (a b : Q) : Decidable (a < b) :=
  inferInstanceAs (Decidable (a.num * b.den < b.num * a.den))

instance (a b : Q) : Decidable (a ≤ b) :=
  inferInstanceAs (Decidable (a.num * b.den ≤ b.num * a.den))

/-- `f32::max`. -/
def Q.max (a b : Q) : Q := if a < b then b else a

/-- `f32::min`. -/
def Q.min (a b : Q) : Q := if b < a then b else a

/-- Cast a natural (e.g. `n_children as f32`, `growable.len() as f32`). -/
def Q.ofNat (n : ℕ) : Q := ⟨Int.ofNat n, 1⟩

/-- Two-component vector over `Q`, modelling `glam::Vec2`. -/
structure Vec2 where
  x : Q
  y : Q
  deriving DecidableEq, Repr

/-- `ui.rs` `Axis`: the two layout axes. -/
inductive Axis where
  | X
  | Y
  deriving DecidableEq, Repr

/-- Component of a `Vec2` along an axis (`size[a as usize]`). -/
def Vec2.get (v : Vec2) (a : Axis) : Q :=
  match a with
  | Axis.X => v.x
  | Axis.Y => v.y

/-- Replace the component of a `Vec2` along an axis. -/
def Vec2.set (v : Vec2) (a : Axis) (q : Q) : Vec2 :=
  match a with
  | Axis.X => { v with x := q }
  | Axis.Y => { v with y := q }

/-- RGBA color, modelling `utils::RGBA`; inert data for the layout claims. -/
structure RGBA where
  r : Q
  g : Q
  b : Q
  a : Q
  deriving DecidableEq, Repr

/-- `RGBA::ZERO`. -/
def RGBA.ZERO : RGBA := ⟨0, 0, 0, 0⟩

/-- `ui.rs` `SizingTyp`: per-axis sizing intent. -/
inductive SizingTyp where
  | Null
  | Fit
  | Grow
  | Fixed (v : Q)
  deriving DecidableEq, Repr

/-- `ui.rs` `Padding`. -/
structure Padding where
  left : Q
  right : Q
  top : Q
  bottom : Q
  deriving DecidableEq, Repr

/-- `Padding::ZERO`. -/
def Padding.ZERO : Padding := ⟨0, 0, 0, 0⟩

/-- `Padding::sum_along_axis`. -/
def Padding.sum_along_axis (p : Padding) (a : Axis) : Q :=
  match a with
  | Axis.X => p.left + p.right
  | Axis.Y => p.top + p.bottom

/-- `ui.rs` `Node`.  `PerAxis<SizingTyp>` is split into the two fields
`sizing_x`/`sizing_y`; the `rect` field is carried as a min/max pair.  Ids are
`ℕ` with `0` for `NodeId::NULL`. -/
structure Node where
  id : ℕ
  first : ℕ
  last : ℕ
  next : ℕ
  prev : ℕ
  parent : ℕ
  n_children : ℕ
  corner_radius : Q
  background_color : RGBA
  layout_direction : Axis
  padding : Padding
  child_gap : Q
  sizing_x : SizingTyp
  sizing_y : SizingTyp
  fixed_pos : Option Vec2
  size : Vec2
  pos : Vec2
  rect_min : Vec2
  rect_max : Vec2
  last_frame_used : ℕ
  deriving DecidableEq, Repr

/-- `sizing_typ[axis]` of a node. -/
def Node.sizing (n : Node) (a : Axis) : SizingTyp :=
  match a with
  | Axis.X => n.sizing_x
  | Axis.Y => n.sizing_y

/-- `Node::NULL`.  The source initialises `size`/`pos` to `Vec2::NAN`; both are
overwritten to zero by `build_node_from_id` before any other code reads them,
so the model uses zero directly. -/
def Node.NULL : Node :=
  { id := 0, first := 0, last := 0, next := 0, prev := 0, parent := 0,
    n_children := 0, corner_radius := 0, background_color := RGBA.ZERO,
    layout_direction := Axis.X, padding := Padding.ZERO, child_gap := 0,
    sizing_x := SizingTyp.Null, sizing_y := SizingTyp.Null,
    fixed_pos := some ⟨0, 0⟩, size := ⟨0, 0⟩, pos := ⟨0, 0⟩,
    rect_min := ⟨0, 0⟩, rect_max := ⟨0, 0⟩, last_frame_used := 0 }

/-- Builder method `Node::fixed_size_x`. -/
def Node.fixed_size_x (n : Node) (v : Q) : Node := { n with sizing_x := SizingTyp.Fixed v }

/-- Builder method `Node::fixed_size_y`. -/
def Node.fixed_size_y (n : Node) (v : Q) : Node := { n with sizing_y := SizingTyp.Fixed v }

/-- Builder method `Node::fixed_size`. -/
def Node.fixed_size (n : Node) (vx vy : Q) : Node := (n.fixed_size_x vx).fixed_size_y vy

/-- Builder method `Node::grow_x`. -/
def Node.grow_x (n : Node) : Node := { n with sizing_x := SizingTyp.Grow }

/-- Builder method `Node::grow_y`. -/
def Node.grow_y (n : Node) : Node := { n with sizing_y := SizingTyp.Grow }

/-- Builder method `Node::child_gap` (renamed `with_child_gap` to avoid the
field projection). -/
def Node.with_child_gap (n : Node) (g : Q) : Node := { n with child_gap := g }

/-- Builder method `Node::layout_dir`. -/
def Node.layout_dir (n : Node) (a : Axis) : Node := { n with layout_direction := a }

/-- Builder method `Node::position`. -/
def Node.position (n : Node) (p : Vec2) : Node := { n with fixed_pos := some p }

/-- Builder method to set padding (the source sets the field directly). -/
def Node.with_padding (n : Node) (p : Padding) : Node := { n with padding := p }

/-- `ui.rs` `RectInst`: the emitted draw rectangle. -/
structure RectInst where
  min : Vec2
  max : Vec2
  color : RGBA
  deriving DecidableEq, Repr

/-- `Node::as_rect_inst`. -/
def Node.as_rect_inst (n : Node) : RectInst :=
  { min := n.pos, max := ⟨n.pos.x + n.size.x, n.pos.y + n.size.y⟩,
    color := n.background_color }

/-- Association-list model of `FxHashMap<NodeId, Node>`. -/
structure NodeMap where
  entries : List (ℕ × Node)
  deriving DecidableEq, Repr

/-- `HashMap::get`: first binding for the key. -/
def NodeMap.find? (cm : NodeMap) (id : ℕ) : Option Node :=
  (cm.entries.find? (fun e => e.1 == id)).map Prod.snd

/-- `HashMap::remove` (drops every binding of the key). -/
def NodeMap.eraseKey (cm : NodeMap) (id : ℕ) : NodeMap :=
  ⟨cm.entries.filter (fun e => e.1 != id)⟩

/-- `HashMap::insert`: replace any previous binding. -/
def NodeMap.insert (cm : NodeMap) (id : ℕ) (n : Node) : NodeMap :=
  ⟨(id, n) :: (cm.eraseKey id).entries⟩

/-- `HashMap::retain`. -/
def NodeMap.retain (cm : NodeMap) (p : ℕ → Node → Bool) : NodeMap :=
  ⟨cm.entries.filter (fun e => p e.1 e.2)⟩

/-- `ui.rs` `State` (the UI session).  The pointer-input fields (`mouse_pos`,
`mouse_pressed`, `mouse_drag_start`) are not read by any operation modelled
here and are omitted. -/
structure State where
  root : ℕ
  hot_node : ℕ
  active_node : ℕ
  node_stack : List Node
  cached_nodes : NodeMap
  roots : List ℕ
  frame_index : ℕ
  id_stack : List ℕ
  deriving DecidableEq, Repr

/-- The empty session: `State::default()`. -/
def state0 : State :=
  { root := 0, hot_node := 0, active_node := 0, node_stack := [],
    cached_nodes := ⟨[]⟩, roots := [], frame_index := 0, id_stack := [] }

/-- `NodeId::NULL`. -/
def NodeId.NULL : ℕ := 0

/-- `NodeId::from_str`: hash the label with an unseeded `FxHasher` and floor
the result to `1`.  The hash itself (`h0`, an external crate) is abstract,
reduced modulo `2 ^ 64` as a `u64`. -/
def NodeId.from_str (h0 : String → ℕ) (s : String) : ℕ :=
  max (h0 s % 2 ^ 64) 1

/-- `State::node_id_from_str`: with an active scope, hash the label with an
`FxHasher` seeded by the innermost scope id, with no flooring; otherwise fall
back to `NodeId::from_str`.  `h` is the abstract seeded hash. -/
def node_id_from_str (h : ℕ → String → ℕ) (h0 : String → ℕ) (s : State)
    (str : String) : ℕ :=
  match s.id_stack.head? with
  | some id => h id str % 2 ^ 64
  | none => NodeId.from_str h0 str

/-- `State::cached_node`: `none` models the panic on a NULL id or on a key
absent from the store. -/
def cached_node (s : State) (id : ℕ) : Option Node :=
  if id = NodeId.NULL then none else s.cached_nodes.find? id

/-- `State::cached_node_mut` has exactly the same guard as `cached_node`; the
mutable access itself is modelled by reinserting the updated node at the call
sites. -/
def cached_node_mut (s : State) (id : ℕ) : Option Node :=
  if id = NodeId.NULL then none else s.cached_nodes.find? id

/-- `State::node_fit_sizing`: resolve Fixed extents, then (when a parent is on
the build stack) add the popped node's own padding and fold its extent and the
accumulated child-gap term into the parent's running measurement along the
parent's layout axis.  Note the source adds `(p.n_children - 1) * p.child_gap`
on every child's end call.  `p.n_children ≥ 1` whenever this runs for a child,
so the `u32` subtraction matches the `ℕ` truncated subtraction used here. -/
def node_fit_sizing (s : State) (n0 : Node) : State × Node :=
  let n1 := match n0.sizing_x with
    | SizingTyp.Fixed v => { n0 with size := { n0.size with x := v } }
    | _ => n0
  let n2 := match n1.sizing_y with
    | SizingTyp.Fixed v => { n1 with size := { n1.size with y := v } }
    | _ => n1
  match s.node_stack with
  | [] => (s, n2)
  | p :: rest =>
    let n3 := { n2 with size := ⟨n2.size.x + n2.padding.left + n2.padding.right,
                                 n2.size.y + n2.padding.top + n2.padding.bottom⟩ }
    let p2 := match p.layout_direction with
      | Axis.X =>
        { p with size := ⟨p.size.x + Q.ofNat (p.n_children - 1) * p.child_gap + n3.size.x,
                          Q.max p.size.y n3.size.y⟩ }
      | Axis.Y =>
        { p with size := ⟨Q.max p.size.x n3.size.x,
                          p.size.y + Q.ofNat (p.n_children - 1) * p.child_gap + n3.size.y⟩ }
    ({ s with node_stack := p2 :: rest }, n3)

/-- Sibling chain walk: the ids visited by `while !child_id.is_null()` loops,
following `next` links through the store.  `none` models a panicking lookup or
fuel exhaustion (a cyclic chain). -/
def child_ids (cm : NodeMap) : ℕ → ℕ → Option (List ℕ)
  | 0, _ => none
  | fuel + 1, id =>
    if id = 0 then some []
    else
      match cm.find? id with
      | none => none
      | some n => (child_ids cm fuel n.next).map (fun l => id :: l)

/-- `f32::INFINITY.min v` for the `second_smallest` accumulator: `none` stands
for infinity. -/
def min_opt (o : Option Q) (v : Q) : Q :=
  match o with
  | none => v
  | some w => Q.min w v

/-- One `for id in &growable` scan of the grow loop, computing
`(smallest, second_smallest, to_add)` exactly as the source's two `if`s do. -/
def grow_scan (cm : NodeMap) (a : Axis) (growable : List ℕ)
    (init : Q × Option Q × Q) : Option (Q × Option Q × Q) :=
  growable.foldlM
    (fun st id =>
      (cm.find? id).map (fun n =>
        let sz := n.size.get a
        let sm := st.1
        let sec := st.2.1
        let ta := st.2.2
        let pair := if sz < sm then (sz, some sm) else (sm, sec)
        let sm2 := pair.1
        let sec2 := pair.2
        if sz > sm2 then
          let s2 := min_opt sec2 sz
          (sm2, some s2, s2 - sm2)
        else (sm2, sec2, ta)))
    init

/-- The update scan of the grow loop: add `to_add` to every growable child
currently at the smallest extent, decrementing `remaining` once per updated
child, as the source does. -/
def grow_update (a : Axis) (growable : List ℕ) (smallest to_add : Q)
    (st : NodeMap × Q) : Option (NodeMap × Q) :=
  growable.foldlM
    (fun acc id =>
      (acc.1.find? id).map (fun n =>
        if n.size.get a = smallest then
          (acc.1.insert id { n with size := n.size.set a (n.size.get a + to_add) },
           acc.2 - to_add)
        else acc))
    st

/-- The `while remaining > 0.0 && !growable.is_empty()` water-filling loop.
`growable` is non-empty (head `g0`) and never changes inside the loop. -/
def grow_loop (a : Axis) (g0 : ℕ) (gs : List ℕ) :
    ℕ → NodeMap → Q → Option NodeMap
  | 0, _, _ => none
  | fuel + 1, cm, remaining =>
    if remaining > 0 then
      match cm.find? g0 with
      | none => none
      | some n0 =>
        let smallest0 := n0.size.get a
        match grow_scan cm a (g0 :: gs) (smallest0, none, remaining) with
        | none => none
        | some st =>
          let smallest := st.1
          let to_add := Q.min st.2.2 (remaining / Q.ofNat (g0 :: gs).length)
          match grow_update a (g0 :: gs) smallest to_add (cm, remaining) with
          | none => none
          | some upd => grow_loop a g0 gs fuel upd.1 upd.2
    else some cm

/-- `State::node_grow_elements_along_axis`: collect the Grow children of `p`
along axis `a`, compute `remaining` (note: the source subtracts the *growable*
children's extents, the parent's padding and the gap term — never the
non-growable siblings' extents), then water-fill. -/
def node_grow_elements_along_axis (cm : NodeMap) (p : Node) (a : Axis)
    (fuel : ℕ) : Option NodeMap :=
  match child_ids cm fuel p.first with
  | none => none
  | some ids =>
    let growable := ids.filter (fun id =>
      match cm.find? id with
      | some n => decide (n.sizing a = SizingTyp.Grow)
      | none => false)
    match growable with
    | [] => some cm
    | g0 :: gs =>
      match growable.foldlM
          (fun acc id => (cm.find? id).map (fun n => acc + n.size.get a)) 0 with
      | none => none
      | some grow_sum =>
        let remaining :=
          p.size.get a - p.padding.sum_along_axis a - grow_sum
            - Q.ofNat (p.n_children - 1) * p.child_gap
        grow_loop a g0 gs fuel cm remaining

/-- The child placement loop of `node_compute_element_positions`: assign `pos`
to each child and advance along the parent's layout axis by the child's extent
plus the gap. -/
def place_children (dir : Axis) (gap : Q) :
    ℕ → NodeMap → Vec2 → ℕ → Option NodeMap
  | 0, _, _, _ => none
  | fuel + 1, cm, pos, id =>
    if id = 0 then some cm
    else
      match cm.find? id with
      | none => none
      | some n =>
        let cm2 := cm.insert id { n with pos := pos }
        let pos2 := match dir with
          | Axis.X => { pos with x := pos.x + n.size.x + gap }
          | Axis.Y => { pos with y := pos.y + n.size.y + gap }
        place_children dir gap fuel cm2 pos2 n.next

/-- `State::node_compute_element_positions`: children start at the parent's
resolved position offset by its leading padding. -/
def node_compute_element_positions (cm : NodeMap) (p : Node) (fuel : ℕ) :
    Option NodeMap :=
  place_children p.layout_direction p.child_gap fuel cm
    ⟨p.padding.left + p.pos.x, p.padding.top + p.pos.y⟩ p.first

/-- `State::pop_parent`: pop the scope id, pop the node, run fit sizing; a
node with no parent is a frame root, on which the grow passes (both axes), the
fixed-position override and the position pass run before it is recorded as a
root; every popped node is (re)inserted into the store. -/
def pop_parent (fuel : ℕ) (s : State) : Option State :=
  let s1 := { s with id_stack := s.id_stack.tail }
  match s1.node_stack with
  | [] => some s1
  | n0 :: rest =>
    let s2 := { s1 with node_stack := rest }
    let fit := node_fit_sizing s2 n0
    let s3 := fit.1
    let n := fit.2
    if n.parent = 0 then
      match node_grow_elements_along_axis s3.cached_nodes n Axis.X fuel with
      | none => none
      | some cm1 =>
        match node_grow_elements_along_axis cm1 n Axis.Y fuel with
        | none => none
        | some cm2 =>
          let n2 := match n.fixed_pos with
            | some p => { n with pos := p }
            | none => n
          match node_compute_element_positions cm2 n2 fuel with
          | none => none
          | some cm3 =>
            some { s3 with cached_nodes := cm3.insert n2.id n2,
                           roots := s3.roots ++ [n2.id] }
    else
      some { s3 with cached_nodes := s3.cached_nodes.insert n.id n }

/-- `State::push_parent`. -/
def push_parent (s : State) (p : Node) : State :=
  { s with id_stack := p.id :: s.id_stack, node_stack := p :: s.node_stack }

/-- `State::prune_nodes`: retain exactly the nodes whose `last_frame_used`
equals the current frame index. -/
def prune_nodes (s : State) : State :=
  { s with cached_nodes :=
      s.cached_nodes.retain (fun _ n => n.last_frame_used == s.frame_index) }

/-- `State::take_or_init_node`: remove the cached node for reuse, or start
from `Node::NULL` with the id filled in. -/
def take_or_init_node (s : State) (id : ℕ) : (Node × Bool) × State :=
  match s.cached_nodes.find? id with
  | some n => ((n, false), { s with cached_nodes := s.cached_nodes.eraseKey id })
  | none => (({ Node.NULL with id := id }, true), s)

/-- `State::build_node_from_id`: reset the per-frame fields, stamp the frame
counter, append the node to the current parent's child chain, and patch the
previous sibling's `next` link (`none` models the `unwrap` panic when the
previous sibling is not in the store). -/
def build_node_from_id (s : State) (id : ℕ) : Option (Node × State) :=
  let t := take_or_init_node s id
  let n0 := t.1.1
  let s1 := t.2
  let n1 := { n0 with next := 0, prev := 0, n_children := 0, first := 0,
                      last := 0, parent := 0, size := ⟨0, 0⟩, pos := ⟨0, 0⟩,
                      last_frame_used := s1.frame_index }
  let link :=
    match s1.node_stack with
    | [] => (n1, s1)
    | p :: rest =>
      let fl :=
        if p.first = 0 then ({ p with first := n1.id, last := n1.id }, n1)
        else if p.last ≠ 0 then (p, { n1 with prev := p.last })
        else (p, n1)
      let p2 := { fl.1 with last := n1.id, n_children := fl.1.n_children + 1 }
      let n2 := { fl.2 with parent := p2.id }
      (n2, { s1 with node_stack := p2 :: rest })
  let n3 := link.1
  let s2 := link.2
  if n3.prev ≠ 0 then
    match s2.cached_nodes.find? n3.prev with
    | none => none
    | some pr =>
      some (n3, { s2 with cached_nodes :=
                    s2.cached_nodes.insert n3.prev { pr with next := n3.id } })
  else some (n3, s2)

/-- `State::begin_node` with the id already resolved: build the node, apply
the caller's configuration closure, and push it as the current parent. -/
def begin_node_id (s : State) (id : ℕ) (f : Node → Node) : Option State :=
  match build_node_from_id s id with
  | none => none
  | some bn => some (push_parent bn.2 (f bn.1))

/-- `State::begin_node`: resolve the id from the scope stack and label. -/
def begin_node (h : ℕ → String → ℕ) (h0 : String → ℕ) (s : State)
    (str : String) (f : Node → Node) : Option State :=
  begin_node_id s (node_id_from_str h h0 s str) f

/-- `State::end_node`. -/
def end_node (fuel : ℕ) (s : State) : Option State := pop_parent fuel s

/-- The inner child-enumeration loop of `State::finish`.  The source reads
`self.cached_node(id)` — the *parent* — instead of `child_id` to advance, so
`child_id` is set to the parent's `next` on every iteration.  New ids are
pushed to the front of the deque (modelled as the list head). -/
def finish_inner (cm : NodeMap) (id : ℕ) :
    ℕ → ℕ → List ℕ → Option (List ℕ)
  | 0, _, _ => none
  | fuel + 1, child_id, deque =>
    if child_id = 0 then some deque
    else
      match cm.find? id with
      | none => none
      | some c => finish_inner cm id fuel c.next (child_id :: deque)

/-- The `while let Some(id) = nodes.pop_back()` loop of `State::finish`.  The
deque is a list whose head is the front; `pop_back` takes the last element. -/
def finish_walk (cm : NodeMap) : ℕ → List ℕ → Option (List RectInst)
  | 0, _ => none
  | fuel + 1, deque =>
    match deque.getLast? with
    | none => some []
    | some id =>
      let dq := deque.dropLast
      match cm.find? id with
      | none => none
      | some n =>
        match finish_inner cm id fuel n.first dq with
        | none => none
        | some dq2 =>
          match finish_walk cm fuel dq2 with
          | none => none
          | some rest => some (n.as_rect_inst :: rest)

/-- `State::finish`: panic (`none`) when the build stack is non-empty; then
drain the root list into a deque, walk it emitting one rectangle per popped
node, and clear the roots. -/
def finish (fuel : ℕ) (s : State) : Option (List RectInst × State) :=
  if s.node_stack ≠ [] then none
  else
    match finish_walk s.cached_nodes fuel s.roots with
    | none => none
    | some rects => some (rects, { s with roots := [] })

/-- `input_recorder.rs` `MouseButton`. -/
inductive MouseButton where
  | Left
  | Right
  | Middle
  deriving DecidableEq, Repr

/-- `input_recorder.rs` `ButtonState`.  `Instant` values are `ℕ` milliseconds. -/
structure ButtonState where
  pressed : Bool
  double_press : Bool
  press_start_pos : Vec2
  press_time : Option ℕ
  last_release_time : Option ℕ
  last_press_was_short : Bool
  dragging : Bool
  deriving DecidableEq, Repr

/-- `ButtonState::default()`. -/
def ButtonState.default : ButtonState :=
  { pressed := false, double_press := false, press_start_pos := ⟨0, 0⟩,
    press_time := none, last_release_time := none,
    last_press_was_short := false, dragging := false }

/-- `input_recorder.rs` `MouseState` (the recorder; distinct from the small
`MouseState` bool-triple in `ui.rs`, which no claim touches). -/
structure MouseState where
  mouse_pos : Vec2
  prev_pos : Vec2
  left : ButtonState
  right : ButtonState
  middle : ButtonState
  double_click_time : ℕ
  drag_threshold : Q
  deriving DecidableEq, Repr

/-- `MouseState::new()`: 150 ms double-click window, 5 px drag threshold. -/
def MouseState.new : MouseState :=
  { mouse_pos := ⟨0, 0⟩, prev_pos := ⟨0, 0⟩, left := ButtonState.default,
    right := ButtonState.default, middle := ButtonState.default,
    double_click_time := 150, drag_threshold := 5 }

/-- `buttons[button]`. -/
def MouseState.button (ms : MouseState) (b : MouseButton) : ButtonState :=
  match b with
  | MouseButton.Left => ms.left
  | MouseButton.Right => ms.right
  | MouseButton.Middle => ms.middle

/-- Write back `buttons[button]`. -/
def MouseState.set_button (ms : MouseState) (b : MouseButton)
    (st : ButtonState) : MouseState :=
  match b with
  | MouseButton.Left => { ms with left := st }
  | MouseButton.Right => { ms with right := st }
  | MouseButton.Middle => { ms with middle := st }

/-- The per-button body of `MouseState::set_button_press`, with `now` (the
source's `Instant::now()`) passed explicitly.  On a fresh press, the double
flag is set iff the press follows the last release within the double-click
window and the previous press was short; on release, the press duration is
classified as short or not, and the double flag is cleared. -/
def ButtonState.step (st : ButtonState) (dct : ℕ) (mouse_pos : Vec2)
    (pressed : Bool) (now : ℕ) : ButtonState :=
  if pressed && !st.pressed then
    { st with pressed := true, press_start_pos := mouse_pos,
              press_time := some now, dragging := false,
              double_press :=
                match st.last_release_time with
                | some lr => decide (now - lr ≤ dct) && st.last_press_was_short
                | none => false }
  else if !pressed && st.pressed then
    { st with pressed := false, dragging := false,
              last_press_was_short :=
                match st.press_time with
                | some pt => decide (now - pt ≤ dct)
                | none => false,
              last_release_time := some now, press_time := none,
              double_press := false }
  else st

/-- `MouseState::set_button_press`. -/
def MouseState.set_button_press (ms : MouseState) (b : MouseButton)
    (pressed : Bool) (now : ℕ) : MouseState :=
  ms.set_button b ((ms.button b).step ms.double_click_time ms.mouse_pos pressed now)

/-- `MouseState::double_clicked`. -/
def MouseState.double_clicked (ms : MouseState) (b : MouseButton) : Bool :=
  (ms.button b).double_press

/-!  Lookup lemmas for the association-list store. -/

theorem find?_filter_ne (l : List (ℕ × Node)) (id k : ℕ) (h : k ≠ id) :
    (l.filter (fun e => e.1 != id)).find? (fun e => e.1 == k)
      = l.find? (fun e => e.1 == k) := by
  induction l with
  | nil => rfl
  | cons e t ih =>
    by_cases he : e.1 = id
    · have h1 : (e.1 != id) = false := by simp [he]
      have h2 : (e.1 == k) = false := by
        simp [he]
        exact Ne.symm h
      simp [List.filter_cons, h1, List.find?_cons, h2, ih]
    · by_cases hk : e.1 = k
      · simp [List.filter_cons, he, List.find?_cons, hk, h]
      · simp [List.filter_cons, he, List.find?_cons, hk, ih]

theorem NodeMap.find?_eraseKey_ne (cm : NodeMap) (id k : ℕ) (h : k ≠ id) :
    (cm.eraseKey id).find? k = cm.find? k := by
  unfold NodeMap.eraseKey NodeMap.find?
  rw [find?_filter_ne cm.entries id k h]

theorem NodeMap.find?_eraseKey_self (cm : NodeMap) (id : ℕ) :
    (cm.eraseKey id).find? id = none := by
  unfold NodeMap.eraseKey NodeMap.find?
  have hfind : List.find? (fun e => e.1 == id)
      (cm.entries.filter (fun e => e.1 != id)) = none := by
    rw [List.find?_eq_none]
    intro e he
    have h2 := (List.mem_filter.mp he).2
    simp at h2 ⊢
    exact h2
  simp [hfind]

theorem NodeMap.find?_insert_self (cm : NodeMap) (id : ℕ) (n : Node) :
    (cm.insert id n).find? id = some n := by
  simp [NodeMap.insert, NodeMap.find?, List.find?_cons]

theorem NodeMap.find?_insert_ne (cm : NodeMap) (id k : ℕ) (n : Node)
    (h : k ≠ id) :
    (cm.insert id n).find? k = cm.find? k := by
  have h2 : (id == k) = false := by
    simp
    exact Ne.symm h
  calc (cm.insert id n).find? k
      = (cm.eraseKey id).find? k := by
        simp [NodeMap.insert, NodeMap.find?, List.find?_cons, h2,
          NodeMap.eraseKey]
    _ = cm.find? k := NodeMap.find?_eraseKey_ne cm id k h

/-!  Concrete frames used to evaluate the layout pipeline on the inputs named
by the claims.  Each is a balanced `begin`/`end` sequence from the empty
session, with ids supplied directly (identity resolution is orthogonal and
modelled separately by `node_id_from_str`). -/

/-- Frame for C1: root `G` (id 1); under it the measured parent `P` (id 2,
layout axis X, `Fit` horizontal sizing, padding `l = 1, r = 2`, child gap 10);
under `P` three children (ids 3, 4, 5) with `Fixed` widths 1, 2, 3 and zero
own padding. -/
def scenC1 : Option State := do
  let s ← begin_node_id state0 1 (fun n => n)
  let s ← begin_node_id s 2 (fun n =>
    { (n.with_padding ⟨1, 2, 0, 0⟩).with_child_gap 10 with
        sizing_x := SizingTyp.Fit })
  let s ← begin_node_id s 3 (fun n => n.fixed_size_x 1)
  let s ← pop_parent 100 s
  let s ← begin_node_id s 4 (fun n => n.fixed_size_x 2)
  let s ← pop_parent 100 s
  let s ← begin_node_id s 5 (fun n => n.fixed_size_x 3)
  let s ← pop_parent 100 s
  let s ← pop_parent 100 s
  pop_parent 100 s

/-- Frame for C2: root (id 1) with `Fixed(100)` width, layout axis X, zero
padding and gap; children `A` (id 2, `Fixed(50)`) and `B` (id 3, `Grow`). -/
def scenC2 : Option State := do
  let s ← begin_node_id state0 1 (fun n => n.fixed_size_x 100)
  let s ← begin_node_id s 2 (fun n => n.fixed_size_x 50)
  let s ← pop_parent 100 s
  let s ← begin_node_id s 3 (fun n => n.grow_x)
  let s ← pop_parent 100 s
  pop_parent 100 s

/-- Frame for C3: root `R` (id 1) with explicit position `(10, 20)` and
leading padding `(1, 2)`; child `A` (id 2) with leading padding `(3, 4)`;
grandchild `X` (id 3) with `Fixed` size `5 × 5`. -/
def scenC3 : Option State := do
  let s ← begin_node_id state0 1 (fun n =>
    (n.position ⟨10, 20⟩).with_padding ⟨1, 0, 2, 0⟩)
  let s ← begin_node_id s 2 (fun n => n.with_padding ⟨3, 0, 4, 0⟩)
  let s ← begin_node_id s 3 (fun n => n.fixed_size 5 5)
  let s ← pop_parent 100 s
  let s ← pop_parent 100 s
  pop_parent 100 s

/-- Frame for C4: root (id 1) with two leaf children `A` (id 2, `10 × 10`)
and `B` (id 3, `20 × 10`); three nodes in total. -/
def scenC4 : Option State := do
  let s ← begin_node_id state0 1 (fun n => n)
  let s ← begin_node_id s 2 (fun n => n.fixed_size 10 10)
  let s ← pop_parent 100 s
  let s ← begin_node_id s 3 (fun n => n.fixed_size 20 10)
  let s ← pop_parent 100 s
  pop_parent 100 s

/-- Frame for C5: root (id 1) at the default position `(0, 0)` with zero
padding; child `A` (id 2) of `Fixed` size `1 × 1` declared with the explicit
fixed position `(5, 5)`. -/
def scenC5 : Option State := do
  let s ← begin_node_id state0 1 (fun n => n)
  let s ← begin_node_id s 2 (fun n => (n.fixed_size 1 1).position ⟨5, 5⟩)
  let s ← pop_parent 100 s
  pop_parent 100 s

/-- Claim C1 (code bug): for the C1 frame the claim predicts the parent's Fit
width `l + r + (N − 1)·g + Σ wᵢ = 1 + 2 + 2·10 + 6 = 29`, but the code adds
`(p.n_children − 1)·gap` to the parent on every child's end call (children
1, 2, 3 contribute `0·g, 1·g, 2·g`), so the measured width is
`1 + 2 + 30 + 6 = 39`. -/
theorem c1_fit_gap_accumulation :
    ((scenC1.bind (fun s => s.cached_nodes.find? 2)).map (fun n => n.size.x)
      = some 39)
    ∧ ((1 + 2 + (3 - 1) * 10 + (1 + 2 + 3) : Q) = 29)
    ∧ (39 : Q) ≠ 29 := by
  decide

/-- Claim C2 (code bug): for the C2 frame the claim predicts the Grow child
resolves to `(W − consumed)/M = (100 − 50)/1 = 50`, but
`node_grow_elements_along_axis` subtracts only the growable children's
extents from `remaining` (never the Fixed siblings'), so the Grow child is
raised to the full 100 (overflowing the parent); the Fixed sibling is indeed
left at 50. -/
theorem c2_grow_remaining :
    ((scenC2.bind (fun s => s.cached_nodes.find? 3)).map (fun n => n.size.x)
      = some 100)
    ∧ ((scenC2.bind (fun s => s.cached_nodes.find? 2)).map (fun n => n.size.x)
      = some 50)
    ∧ (((100 : Q) - 50) / 1 = 50)
    ∧ (100 : Q) ≠ 50 := by
  decide

/-- Claim C3 (code bug): in the C3 frame the root's direct child `A` is
positioned at the root position plus leading padding, `(11, 22)`, but the
grandchild `X` is never positioned (the grow/position passes in `pop_parent`
visit only the root's direct children): its position stays `(0, 0)` instead
of the claimed `A.pos + (3, 4) = (14, 26)`. -/
theorem c3_positions_depth :
    ((scenC3.bind (fun s => s.cached_nodes.find? 2)).map (fun n => n.pos)
      = some ⟨11, 22⟩)
    ∧ ((scenC3.bind (fun s => s.cached_nodes.find? 3)).map (fun n => n.pos)
      = some ⟨0, 0⟩)
    ∧ ((⟨11 + 3, 22 + 4⟩ : Vec2) = ⟨14, 26⟩)
    ∧ ((⟨0, 0⟩ : Vec2) ≠ (⟨14, 26⟩ : Vec2)) := by
  decide

/-- Claim C4 (code bug): the C4 frame has three nodes, but `finish` emits only
two rectangles — the root and its first child — because the inner loop of
`finish` advances with `cached_node(id).next` (the parent's `next`) instead of
the child's, so the second child `B` (rectangle `(10,0)–(30,10)`) is never
visited.  The root list is cleared. -/
theorem c4_finish_emits :
    ((scenC4.bind (finish 100)).map (fun pr => pr.1)
      = some [⟨⟨0, 0⟩, ⟨30, 10⟩, RGBA.ZERO⟩, ⟨⟨0, 0⟩, ⟨10, 10⟩, RGBA.ZERO⟩])
    ∧ ((scenC4.bind (finish 100)).map (fun pr => pr.1.length) = some 2)
    ∧ (2 : ℕ) ≠ 3
    ∧ ((scenC4.bind (finish 100)).map (fun pr => pr.2.roots) = some []) := by
  decide

/-- Claim C5 counterexample: in the C5 frame the child carries the explicit
fixed position `(5, 5)`, yet the position pass assigns it the sequentially
computed `(0, 0)`: a non-root node's fixed position is ignored. -/
theorem c5_counterexample :
    ((scenC5.bind (fun s => s.cached_nodes.find? 2)).map (fun n => n.fixed_pos)
      = some (some ⟨5, 5⟩))
    ∧ ((scenC5.bind (fun s => s.cached_nodes.find? 2)).map (fun n => n.pos)
      = some ⟨0, 0⟩)
    ∧ ((⟨0, 0⟩ : Vec2) ≠ (⟨5, 5⟩ : Vec2)) := by
  decide

/-- Claim C8 counterexample: with a non-empty scope stack,
`node_id_from_str` returns the raw seeded hash with no flooring, so a hash
value of `0` yields the NULL id (here for the empty label).  The floor to a
nonzero sentinel exists only in the scopeless `NodeId::from_str` branch. -/
theorem c8_counterexample :
    node_id_from_str (fun _ _ => 0) (fun _ => 0)
      { state0 with id_stack := [1] } "" = NodeId.NULL := by
  decide

/-- Claim C9 counterexample: press at 0 ms, release at 50 ms (short), second
press at 100 ms (within the 150 ms window of the release, so the double flag
is set while held), release at 120 ms.  After the second press's release
`double_clicked` is `false` — the release handler clears the flag — contrary
to the claim. -/
theorem c9_counterexample :
    (((((MouseState.new.set_button_press MouseButton.Left true 0
        ).set_button_press MouseButton.Left false 50
        ).set_button_press MouseButton.Left true 100
        ).set_button_press MouseButton.Left false 120
        ).double_clicked MouseButton.Left = false)
    ∧ ((((MouseState.new.set_button_press MouseButton.Left true 0
        ).set_button_press MouseButton.Left false 50
        ).set_button_press MouseButton.Left true 100
        ).double_clicked MouseButton.Left = true) := by
  decide

/-- `take_or_init_node` touches only the cached-node store of the session. -/
theorem take_or_init_node_state (s : State) (id : ℕ) :
    ((take_or_init_node s id).2.frame_index = s.frame_index)
    ∧ ((take_or_init_node s id).2.node_stack = s.node_stack)
    ∧ ((take_or_init_node s id).2.roots = s.roots)
    ∧ ((take_or_init_node s id).2.id_stack = s.id_stack) := by
  unfold take_or_init_node
  split <;> simp

/-- Claim C6: usage errors fail loudly.  `finish` refuses (panics, modelled as
`none`) whenever the build stack is non-empty, and both `cached_node` and
`cached_node_mut` refuse the NULL id and any id absent from the store. -/
theorem c6_fail_fast :
    (∀ (fuel : ℕ) (s : State), s.node_stack ≠ [] → finish fuel s = none)
    ∧ (∀ (s : State) (id : ℕ),
        id = NodeId.NULL ∨ s.cached_nodes.find? id = none →
          cached_node s id = none ∧ cached_node_mut s id = none) := by
  constructor
  · intro fuel s h
    simp [finish, h]
  · intro s id h
    rcases h with h | h
    · simp [cached_node, cached_node_mut, h]
    · by_cases hid : id = NodeId.NULL
      · simp [cached_node, cached_node_mut, hid]
      · simp [cached_node, cached_node_mut, hid, h]

/-- Witness for C6 at a concrete unbalanced session and a NULL lookup. -/
theorem c6_witness :
    finish 5 { state0 with node_stack := [Node.NULL] } = none
    ∧ cached_node state0 0 = none
    ∧ cached_node_mut state0 0 = none :=
  ⟨c6_fail_fast.1 5 { state0 with node_stack := [Node.NULL] } (by decide),
   (c6_fail_fast.2 state0 0 (Or.inl rfl)).1,
   (c6_fail_fast.2 state0 0 (Or.inl rfl)).2⟩

/-- Claim C7: pruning is exact.  Under the store invariant that no cached
node's `last_frame_used` exceeds the current frame index (which holds because
`build_node_from_id` stamps exactly the current index), `prune_nodes` keeps an
entry iff it is in the store and its counter is not behind the frame index;
and every node built (touched) this frame carries the current index. -/
theorem c7_prune_exact :
    (∀ s : State,
      (∀ e ∈ s.cached_nodes.entries, e.2.last_frame_used ≤ s.frame_index) →
      ∀ e, e ∈ (prune_nodes s).cached_nodes.entries ↔
        (e ∈ s.cached_nodes.entries ∧ ¬ e.2.last_frame_used < s.frame_index))
    ∧ (∀ (s : State) (id : ℕ) (n : Node) (s2 : State),
        build_node_from_id s id = some (n, s2) →
          n.last_frame_used = s.frame_index ∧ s2.frame_index = s.frame_index) := by
  constructor
  · intro s hinv e
    simp only [prune_nodes, NodeMap.retain, List.mem_filter]
    constructor
    · rintro ⟨hm, hq⟩
      have hle := hinv e hm
      have heq : e.2.last_frame_used = s.frame_index := by simpa using hq
      exact ⟨hm, by omega⟩
    · rintro ⟨hm, hq⟩
      have hle := hinv e hm
      have heq : e.2.last_frame_used = s.frame_index := by omega
      simp [hm, heq]
  · intro s id n s2 hb
    unfold build_node_from_id at hb
    generalize ht : take_or_init_node s id = t at hb
    have hQ := take_or_init_node_state s id
    rw [ht] at hQ
    obtain ⟨⟨n0, isNew⟩, s1⟩ := t
    simp only at hQ
    dsimp only at hb
    rcases hstack : s1.node_stack with _ | ⟨p, rest⟩ <;> rw [hstack] at hb
    · simp only [reduceIte] at hb
      simp at hb
      obtain ⟨h1, h2⟩ := hb
      subst h1
      subst h2
      simpa using hQ.1
    · by_cases hpf : p.first = 0
      · simp only [hpf, if_true, reduceIte] at hb
        simp at hb
        obtain ⟨h1, h2⟩ := hb
        subst h1
        subst h2
        simpa using hQ.1
      · by_cases hpl : p.last = 0
        · simp [hpf, hpl] at hb
          obtain ⟨h1, h2⟩ := hb
          subst h1
          subst h2
          simpa using hQ.1
        · simp only [hpf, hpl, if_false, reduceIte] at hb
          simp only [if_neg hpf, if_pos hpl] at hb
          rcases hprev : (s1.cached_nodes.find? p.last) with _ | pr
          · simp [hprev, hpl] at hb
          · simp [hprev, hpl] at hb
            obtain ⟨h1, h2⟩ := hb
            subst h1
            subst h2
            simpa using hQ.1

/-- A session in frame 1 caching a stale node (key 5, last used in frame 0)
and a fresh node (key 6, last used in frame 1). -/
def c7s : State :=
  { state0 with
      frame_index := 1
      cached_nodes :=
        ⟨[(5, Node.NULL),
          (6, { Node.NULL with id := 6, last_frame_used := 1 })]⟩ }

/-- Witness for C7: the stale entry of `c7s` is characterised by the pruning
theorem, and building node 1 in the empty session stamps the current frame. -/
theorem c7_witness :
    ((5, Node.NULL) ∈ (prune_nodes c7s).cached_nodes.entries ↔
      ((5, Node.NULL) ∈ c7s.cached_nodes.entries
        ∧ ¬ (Node.NULL : Node).last_frame_used < c7s.frame_index))
    ∧ ((build_node_from_id state0 1).getD (Node.NULL, state0)).1.last_frame_used
        = state0.frame_index
    ∧ ((build_node_from_id state0 1).getD (Node.NULL, state0)).2.frame_index
        = state0.frame_index :=
  ⟨c7_prune_exact.1 c7s (by decide) (5, Node.NULL),
   (c7_prune_exact.2 state0 1 _ _ rfl).1,
   (c7_prune_exact.2 state0 1 _ _ rfl).2⟩

/-- `node_fit_sizing` only resizes: the popped node's identity, tree links,
position and fixed position are untouched. -/
theorem node_fit_sizing_keeps (s : State) (n : Node) :
    ((node_fit_sizing s n).2.id = n.id)
    ∧ ((node_fit_sizing s n).2.parent = n.parent)
    ∧ ((node_fit_sizing s n).2.pos = n.pos)
    ∧ ((node_fit_sizing s n).2.fixed_pos = n.fixed_pos)
    ∧ ((node_fit_sizing s n).2.first = n.first)
    ∧ ((node_fit_sizing s n).2.next = n.next)
    ∧ ((node_fit_sizing s n).2.prev = n.prev)
    ∧ ((node_fit_sizing s n).2.last = n.last)
    ∧ ((node_fit_sizing s n).2.n_children = n.n_children)
    ∧ ((node_fit_sizing s n).2.last_frame_used = n.last_frame_used) := by
  unfold node_fit_sizing
  rcases n with ⟨_, _, _, _, _, _, _, _, _, _, _, _, sx, sy, _, _, _, _, _, _⟩
  cases sx <;> cases sy <;> rcases s.node_stack with _ | ⟨p, rest⟩ <;> simp

/-- Claim C5 (amended): the explicit fixed position is honoured only for frame
roots.  When `pop_parent` pops a node with no parent and a fixed position `p`,
the node is stored with `pos = p` (its children were placed relative to it);
when it pops a node that has a parent, the node is stored with its position
unchanged — its fixed position, though retained in the node, is ignored. -/
theorem c5_fixed_pos_root_only (s : State) (n : Node) (rest : List Node)
    (p : Vec2) (fuel : ℕ) (s2 : State)
    (hstack : s.node_stack = n :: rest)
    (hpop : pop_parent fuel s = some s2) :
    (n.parent = 0 → n.fixed_pos = some p →
      ∃ m, s2.cached_nodes.find? n.id = some m ∧ m.pos = p)
    ∧ (n.parent ≠ 0 →
      ∃ m, s2.cached_nodes.find? n.id = some m ∧ m.pos = n.pos
        ∧ m.fixed_pos = n.fixed_pos) := by
  have hk := node_fit_sizing_keeps ({ s with id_stack := s.id_stack.tail, node_stack := rest }) n
  unfold pop_parent at hpop
  rw [hstack] at hpop
  dsimp only at hpop
  generalize hfit : node_fit_sizing ({ s with id_stack := s.id_stack.tail, node_stack := rest }) n = fitres at hpop hk
  obtain ⟨s3, nf⟩ := fitres
  simp only at hk hpop
  obtain ⟨hid, hparent, hpos, hfixed, _⟩ := hk
  split at hpop
  · rename_i hpar
    split at hpop
    · exact Option.noConfusion hpop
    rename_i cm1 hg1
    split at hpop
    · exact Option.noConfusion hpop
    rename_i cm2 hg2
    split at hpop
    · exact Option.noConfusion hpop
    rename_i cm3 hg3
    rcases hfp3 : nf.fixed_pos with _ | p2 <;>
      rw [hfp3] at hpop hg3 <;> dsimp only at hpop hg3
    · constructor
      · intro h0 hfp
        rw [← hfixed, hfp3] at hfp
        exact Option.noConfusion hfp
      · intro hne
        exact absurd (by rw [← hparent]; exact hpar) hne
    · constructor
      · intro h0 hfp
        rw [← hfixed, hfp3] at hfp
        have hp2 : p2 = p := by
          injection hfp
        subst hp2
        simp only [Option.some.injEq] at hpop
        subst hpop
        refine ⟨{ nf with fixed_pos := some p2, pos := p2 }, ?_, rfl⟩
        simp only
        rw [← hid]
        exact NodeMap.find?_insert_self _ _ _
      · intro hne
        exact absurd (by rw [← hparent]; exact hpar) hne
  · rename_i hpar
    simp only [Option.some.injEq] at hpop
    subst hpop
    constructor
    · intro hz _
      exact absurd (by rw [← hparent] at hz; exact hz) hpar
    · intro _
      refine ⟨nf, ?_, hpos, hfixed⟩
      simp only
      rw [← hid]
      exact NodeMap.find?_insert_self _ _ _

/-- A one-node session about to pop a root with id 7. -/
def c5state : State :=
  { state0 with node_stack := [{ Node.NULL with id := 7 }] }

/-- The session after the pop. -/
def c5popped : State := (pop_parent 10 c5state).getD state0

/-- Witness for C5's amended theorem at the concrete root node of `c5state`
(parent NULL, default fixed position `(0, 0)`). -/
theorem c5_witness :
    (({ Node.NULL with id := 7 } : Node).parent = 0 →
      ({ Node.NULL with id := 7 } : Node).fixed_pos = some ⟨0, 0⟩ →
      ∃ m, c5popped.cached_nodes.find? ({ Node.NULL with id := 7 } : Node).id
          = some m ∧ m.pos = ⟨0, 0⟩)
    ∧ (({ Node.NULL with id := 7 } : Node).parent ≠ 0 →
      ∃ m, c5popped.cached_nodes.find? ({ Node.NULL with id := 7 } : Node).id
          = some m
        ∧ m.pos = ({ Node.NULL with id := 7 } : Node).pos
        ∧ m.fixed_pos = ({ Node.NULL with id := 7 } : Node).fixed_pos) :=
  c5_fixed_pos_root_only c5state { Node.NULL with id := 7 } [] ⟨0, 0⟩ 10
    c5popped rfl rfl

/-- Claim C8 (amended): `node_id_from_str` is guaranteed non-NULL when the
scope stack is empty, because `NodeId::from_str` floors the hash to at least
`1`.  (With a non-empty scope stack the raw seeded hash is returned with no
floor, so a zero hash yields NULL — see the counterexample.)  The statement
holds for every abstract hash pair `h`, `h0`. -/
theorem c8_empty_scope_nonnull (h : ℕ → String → ℕ) (h0 : String → ℕ)
    (s : State) (str : String) (hsc : s.id_stack = []) :
    node_id_from_str h h0 s str ≠ NodeId.NULL := by
  unfold node_id_from_str
  rw [hsc]
  simp only [List.head?_nil, NodeId.from_str, NodeId.NULL]
  have h1 := Nat.le_max_right (h0 str % 2 ^ 64) 1
  omega

/-- Witness for C8's amended theorem at the empty session and empty label. -/
theorem c8_witness :
    node_id_from_str (fun _ _ => 0) (fun _ => 0) state0 "" ≠ NodeId.NULL :=
  c8_empty_scope_nonnull (fun _ _ => 0) (fun _ => 0) state0 "" rfl

/-- Claim C9 (amended): with a press at `t0` and release at `t1` of short
duration (`t1 − t0 ≤ 150` ms), a second press at `t2` within the window
(`t2 − t1 ≤ 150`) sets the double-click flag, which `double_clicked` reports
`true` while that press is held; the second press's release (at any `t3`)
clears the flag, so afterwards `double_clicked` reports `false`; and a second
press beyond the window (`u2 − t1 > 150`) never sets the flag. -/
theorem c9_double_click_on_second_press (b : MouseButton) (t0 t1 t2 t3 u2 : ℕ)
    (hshort : t1 - t0 ≤ 150) (hgap : t2 - t1 ≤ 150) (hlate : 150 < u2 - t1) :
    ((((MouseState.new.set_button_press b true t0).set_button_press b false t1
       ).set_button_press b true t2).double_clicked b = true)
    ∧ (((((MouseState.new.set_button_press b true t0).set_button_press b false
        t1).set_button_press b true t2).set_button_press b false t3
        ).double_clicked b = false)
    ∧ ((((MouseState.new.set_button_press b true t0).set_button_press b false
        t1).set_button_press b true u2).double_clicked b = false) := by
  have hlate2 : ¬ (u2 - t1 ≤ 150) := by omega
  cases b <;>
    simp [MouseState.set_button_press, MouseState.set_button,
      MouseState.button, MouseState.double_clicked, MouseState.new,
      ButtonState.step, ButtonState.default, hshort, hgap, hlate2]

/-- Witness for C9's amended theorem: left button, press 0 ms, release 50 ms,
second press 100 ms (and, for the last conjunct, a late press at 999 ms),
final release 120 ms. -/
theorem c9_witness :
    ((((MouseState.new.set_button_press MouseButton.Left true 0
       ).set_button_press MouseButton.Left false 50
       ).set_button_press MouseButton.Left true 100
       ).double_clicked MouseButton.Left = true)
    ∧ (((((MouseState.new.set_button_press MouseButton.Left true 0
        ).set_button_press MouseButton.Left false 50
        ).set_button_press MouseButton.Left true 100
        ).set_button_press MouseButton.Left false 120
        ).double_clicked MouseButton.Left = false)
    ∧ ((((MouseState.new.set_button_press MouseButton.Left true 0
        ).set_button_press MouseButton.Left false 50
        ).set_button_press MouseButton.Left true 999
        ).double_clicked MouseButton.Left = false) :=
  c9_double_click_on_second_press MouseButton.Left 0 50 100 120 999
    (by decide) (by decide) (by decide)

/-!  Development for the child-link invariant (C10). -/

/-- A store is well keyed when every binding's node carries its key as `id`
(maintained by every store operation the builder performs). -/
def well_keyed (cm : NodeMap) : Prop :=
  ∀ k n, cm.find? k = some n → n.id = k

theorem well_keyed_eraseKey (cm : NodeMap) (id : ℕ) (h : well_keyed cm) :
    well_keyed (cm.eraseKey id) := by
  intro k n hf
  by_cases hk : k = id
  · rw [hk, NodeMap.find?_eraseKey_self] at hf
    exact Option.noConfusion hf
  · rw [NodeMap.find?_eraseKey_ne cm id k hk] at hf
    exact h k n hf

theorem well_keyed_insert (cm : NodeMap) (id : ℕ) (n : Node)
    (hcm : well_keyed cm) (hn : n.id = id) : well_keyed (cm.insert id n) := by
  intro k m hf
  by_cases hk : k = id
  · subst hk
    rw [NodeMap.find?_insert_self] at hf
    cases hf
    exact hn
  · rw [NodeMap.find?_insert_ne cm id k n hk] at hf
    exact hcm k m hf

theorem eraseKey_of_absent (cm : NodeMap) (id : ℕ)
    (h : cm.find? id = none) : cm.eraseKey id = cm := by
  obtain ⟨entries⟩ := cm
  unfold NodeMap.find? at h
  unfold NodeMap.eraseKey
  have hnone : entries.find? (fun e => e.1 == id) = none := by
    cases hfind : entries.find? (fun e => e.1 == id) with
    | none => rfl
    | some e => rw [hfind] at h; exact Option.noConfusion h
  have hall := List.find?_eq_none.mp hnone
  have : entries.filter (fun e => e.1 != id) = entries := by
    rw [List.filter_eq_self]
    intro e he
    have := hall e he
    simpa using this
  simp only [this]

/-- `take_or_init_node` uniformly erases the key and hands back a node whose
`id` is the key (whether cached or fresh), provided the store is well
keyed. -/
theorem take_or_init_uniform (s : State) (x : ℕ)
    (hwk : well_keyed s.cached_nodes) :
    ∃ n0 b, take_or_init_node s x
      = ((n0, b), { s with cached_nodes := s.cached_nodes.eraseKey x })
      ∧ n0.id = x := by
  unfold take_or_init_node
  rcases hf : s.cached_nodes.find? x with _ | n
  · refine ⟨{ Node.NULL with id := x }, true, ?_, rfl⟩
    rw [eraseKey_of_absent s.cached_nodes x hf]
  · exact ⟨n, false, rfl, hwk x n hf⟩

/-- The state returned by `node_fit_sizing` alongside a parent stack: the top
node keeps its identity and links (only its size is folded), the tail and the
store are untouched. -/
theorem node_fit_sizing_stack (s : State) (n p : Node) (rest : List Node)
    (h : s.node_stack = p :: rest) :
    ∃ p2, (node_fit_sizing s n).1.node_stack = p2 :: rest
      ∧ p2.id = p.id ∧ p2.first = p.first ∧ p2.last = p.last
      ∧ p2.n_children = p.n_children
      ∧ (node_fit_sizing s n).1.cached_nodes = s.cached_nodes
      ∧ (node_fit_sizing s n).1.roots = s.roots
      ∧ (node_fit_sizing s n).1.frame_index = s.frame_index
      ∧ (node_fit_sizing s n).1.id_stack = s.id_stack := by
  unfold node_fit_sizing
  rw [h]
  rcases hx : n.sizing_x with _ | _ | _ | v <;>
    rcases hld : p.layout_direction with _ | _ <;>
    dsimp only <;>
    first
    | exact ⟨_, rfl, rfl, rfl, rfl, rfl, rfl, rfl, rfl, rfl⟩
    | (rcases hy : n.sizing_y with _ | _ | _ | w <;> dsimp only <;>
        rw [hld] <;> dsimp only <;>
        exact ⟨_, rfl, rfl, rfl, rfl, rfl, rfl, rfl, rfl, rfl⟩)

/-- Walking `next` links from a given id through the store visits exactly the
listed ids, in order, and ends at the NULL id: a finite, cycle-free sibling
chain. -/
inductive Chain (cm : NodeMap) : ℕ → List ℕ → Prop
  | nil : Chain cm 0 []
  | cons {id : ℕ} {n : Node} {l : List ℕ} (hne : id ≠ 0)
      (hfind : cm.find? id = some n) (htail : Chain cm n.next l) :
      Chain cm id (id :: l)

/-- Pointwise well-formed child chain: each listed id is bound to a node whose
`parent` is `pid` and whose `next` is the following listed id (NULL for the
final one). -/
def linked (cm : NodeMap) (pid : ℕ) : List ℕ → Prop
  | [] => True
  | j :: rest => ∃ nj, cm.find? j = some nj ∧ nj.parent = pid
      ∧ nj.next = rest.headI ∧ linked cm pid rest

theorem linked_mem (cm : NodeMap) (pid : ℕ) :
    ∀ l : List ℕ, linked cm pid l →
      ∀ j ∈ l, ∃ nj, cm.find? j = some nj ∧ nj.parent = pid := by
  intro l
  induction l with
  | nil =>
    intro _ j hj
    exact absurd hj (List.not_mem_nil j)
  | cons a t ih =>
    rintro ⟨na, hfa, hpa, _, hrest⟩ j hj
    rcases List.mem_cons.mp hj with hj | hj
    · exact ⟨na, hj ▸ hfa, hpa⟩
    · exact ih hrest j hj

theorem chain_of_linked (cm : NodeMap) (pid : ℕ) :
    ∀ l : List ℕ, linked cm pid l → (0 : ℕ) ∉ l → Chain cm l.headI l := by
  intro l
  induction l with
  | nil =>
    intro _ _
    exact Chain.nil
  | cons a t ih =>
    rintro ⟨na, hfa, _, hnext, hrest⟩ h0
    have ha : a ≠ 0 := fun hh => h0 (hh ▸ List.mem_cons_self a t)
    have htail := ih hrest (fun hh => h0 (List.mem_cons_of_mem a hh))
    exact Chain.cons ha hfa (by rw [hnext]; exact htail)

/-- Appending a fresh node `x` to a well-formed chain: the store may change
the old last node's `next` to `x` (and nothing else about the listed ids), and
must bind `x` to a node with `parent = pid` and `next = 0`. -/
theorem linked_snoc (pid x : ℕ) (nx : Node) :
    ∀ (l : List ℕ) (cm cm2 : NodeMap),
    linked cm pid l →
    l.Nodup →
    x ∉ l →
    (∀ j ∈ l, j ≠ l.getLast?.getD 0 → cm2.find? j = cm.find? j) →
    (l ≠ [] → ∀ nl, cm.find? (l.getLast?.getD 0) = some nl →
      cm2.find? (l.getLast?.getD 0) = some { nl with next := x }) →
    cm2.find? x = some nx → nx.parent = pid → nx.next = 0 →
    linked cm2 pid (l ++ [x]) := by
  intro l
  induction l with
  | nil =>
    intro cm cm2 _ _ _ _ _ hfx hpx hnx
    exact ⟨nx, hfx, hpx, by simpa using hnx, trivial⟩
  | cons j rest ih =>
    intro cm cm2 hlink hnd hxl hpres hlastupd hfx hpx hnx
    obtain ⟨nj, hfj, hpj, hnj, hrest⟩ := hlink
    rcases rest with _ | ⟨r, rs⟩
    · -- j is the last element of the chain
      have hlast : (([j] : List ℕ).getLast?.getD 0) = j := rfl
      have hfj2 : cm2.find? j = some { nj with next := x } := by
        have := hlastupd (by simp) nj
        rw [hlast] at this
        exact this hfj
      refine ⟨{ nj with next := x }, hfj2, hpj, ?_, ?_⟩
      · simp
      · exact ⟨nx, hfx, hpx, by simpa using hnx, trivial⟩
    · -- j is an interior element: untouched
      have hlq : ((j :: r :: rs).getLast?.getD 0) = ((r :: rs).getLast?.getD 0) := by
        rw [List.getLast?_cons_cons]
      have hjlast : j ≠ (j :: r :: rs).getLast?.getD 0 := by
        rw [hlq]
        intro hj
        have hmem : ((r :: rs).getLast?.getD 0) ∈ r :: rs := by
          rw [List.getLast?_eq_getLast_of_ne_nil (by simp), Option.getD_some]
          exact List.getLast_mem (by simp)
        exact (List.nodup_cons.mp hnd).1 (hj ▸ hmem)
      have hfj2 : cm2.find? j = some nj := by
        rw [hpres j (List.mem_cons_self j _) hjlast]
        exact hfj
      refine ⟨nj, hfj2, hpj, ?_, ?_⟩
      · rw [hnj]
        rfl
      · refine ih cm cm2 hrest (List.nodup_cons.mp hnd).2
          (fun hh => hxl (List.mem_cons_of_mem j hh)) ?_ ?_ hfx hpx hnx
        · intro j2 hj2 hj2last
          refine hpres j2 (List.mem_cons_of_mem j hj2) ?_
          rw [hlq]
          exact hj2last
        · intro _ nl hnl
          have := hlastupd (by simp) nl
          rw [hlq] at this
          exact this hnl

/-- `build_node_from_id` for the first child of the parent on the stack: the
parent gains `first = last = x` and one more child; the built node points back
at the parent with no siblings. -/
theorem build_node_char_first (s : State) (P : Node) (rest : List Node)
    (x : ℕ) (hstack : s.node_stack = P :: rest)
    (hwk : well_keyed s.cached_nodes) (hPf : P.first = 0) :
    ∃ n2 sL, build_node_from_id s x = some (n2, sL)
      ∧ n2.id = x ∧ n2.parent = P.id ∧ n2.next = 0 ∧ n2.prev = 0
      ∧ n2.last_frame_used = s.frame_index
      ∧ sL.node_stack
          = { P with first := x, last := x,
                     n_children := P.n_children + 1 } :: rest
      ∧ sL.cached_nodes = s.cached_nodes.eraseKey x
      ∧ sL.frame_index = s.frame_index := by
  obtain ⟨n0, b0, htake, hn0⟩ := take_or_init_uniform s x hwk
  unfold build_node_from_id
  rw [htake]
  dsimp only
  rw [hstack]
  dsimp only
  rw [if_pos hPf]
  dsimp only
  rw [if_neg (by simp)]
  refine ⟨_, _, rfl, hn0, rfl, rfl, rfl, rfl, ?_, rfl, rfl⟩
  rw [hn0]

/-- `build_node_from_id` for a subsequent child: the parent's `last` moves to
`x`, its `first` is untouched, the previous last sibling's `next` is patched
to `x`, and the built node records the old last as `prev`. -/
theorem build_node_char_append (s : State) (P : Node) (rest : List Node)
    (x : ℕ) (pl : Node) (hstack : s.node_stack = P :: rest)
    (hwk : well_keyed s.cached_nodes) (hPf : P.first ≠ 0) (hPl : P.last ≠ 0)
    (hxl : P.last ≠ x)
    (hfindl : s.cached_nodes.find? P.last = some pl) :
    ∃ n2 sL, build_node_from_id s x = some (n2, sL)
      ∧ n2.id = x ∧ n2.parent = P.id ∧ n2.next = 0 ∧ n2.prev = P.last
      ∧ n2.last_frame_used = s.frame_index
      ∧ sL.node_stack
          = { P with last := x, n_children := P.n_children + 1 } :: rest
      ∧ sL.cached_nodes
          = (s.cached_nodes.eraseKey x).insert P.last { pl with next := x }
      ∧ sL.frame_index = s.frame_index := by
  obtain ⟨n0, b0, htake, hn0⟩ := take_or_init_uniform s x hwk
  unfold build_node_from_id
  rw [htake]
  dsimp only
  rw [hstack]
  dsimp only
  rw [if_neg hPf, if_pos hPl]
  dsimp only
  rw [if_pos hPl]
  have hfind2 : (s.cached_nodes.eraseKey x).find? P.last = some pl := by
    rw [NodeMap.find?_eraseKey_ne s.cached_nodes x P.last hxl]
    exact hfindl
  rw [hfind2]
  dsimp only
  refine ⟨_, _, rfl, hn0, rfl, rfl, rfl, rfl, ?_, ?_, rfl⟩ <;> rw [hn0]

/-- `pop_parent` on a node that has a parent: fit sizing folds the node's size
into the stack top (preserving the top's identity and links) and the node is
reinserted into the store with its links intact. -/
theorem pop_leaf_char (s1 : State) (n2 p2 : Node) (rest2 : List Node)
    (hstack : s1.node_stack = n2 :: p2 :: rest2) (hpar : n2.parent ≠ 0) :
    ∃ s3 p3 nf, pop_parent 1 s1 = some s3
      ∧ s3.node_stack = p3 :: rest2
      ∧ p3.id = p2.id ∧ p3.first = p2.first ∧ p3.last = p2.last
      ∧ p3.n_children = p2.n_children
      ∧ nf.id = n2.id ∧ nf.parent = n2.parent ∧ nf.next = n2.next
      ∧ nf.prev = n2.prev ∧ nf.last_frame_used = n2.last_frame_used
      ∧ s3.cached_nodes = s1.cached_nodes.insert n2.id nf := by
  have hk := node_fit_sizing_keeps ({ s1 with id_stack := s1.id_stack.tail, node_stack := p2 :: rest2 }) n2
  have hst := node_fit_sizing_stack ({ s1 with id_stack := s1.id_stack.tail, node_stack := p2 :: rest2 }) n2 p2 rest2 rfl
  obtain ⟨p3, hst1, hst2, hst3, hst4, hst5, hst6, _⟩ := hst
  unfold pop_parent
  rw [hstack]
  dsimp only
  rw [if_neg (by rw [hk.2.1]; exact hpar)]
  refine ⟨_, p3, (node_fit_sizing ({ s1 with id_stack := s1.id_stack.tail, node_stack := p2 :: rest2 }) n2).2,
    rfl, ?_, hst2, hst3, hst4, hst5, hk.1, hk.2.1, hk.2.2.2.2.2.1, hk.2.2.2.2.2.2.1,
    hk.2.2.2.2.2.2.2.2.2, ?_⟩
  · exact hst1
  · rw [hst6, hk.1]

/-- One leaf child declared under the current parent: `begin_node` (with the
identity configuration) immediately followed by `end_node`. -/
def begin_end_leaf (s : State) (x : ℕ) : Option State :=
  match begin_node_id s x (fun n => n) with
  | none => none
  | some s1 => pop_parent 1 s1

/-- A balanced sequence of leaf children declared in order under the current
parent. -/
def build_children (s : State) : List ℕ → Option State
  | [] => some s
  | x :: xs =>
    match begin_end_leaf s x with
    | none => none
    | some s2 => build_children s2 xs

/-- Declaring the first leaf child `x` under the stack-top parent. -/
theorem begin_end_leaf_first (s : State) (P : Node) (rest : List Node) (x : ℕ)
    (hstack : s.node_stack = P :: rest) (hwk : well_keyed s.cached_nodes)
    (hPid : P.id ≠ 0) (hPf : P.first = 0) :
    ∃ s3 P2 nf, begin_end_leaf s x = some s3
      ∧ s3.node_stack = P2 :: rest
      ∧ P2.id = P.id ∧ P2.first = x ∧ P2.last = x
      ∧ P2.n_children = P.n_children + 1
      ∧ nf.id = x ∧ nf.parent = P.id ∧ nf.next = 0
      ∧ s3.cached_nodes = (s.cached_nodes.eraseKey x).insert x nf := by
  obtain ⟨n2, sL, hbuild, hid, hpar, hnext, hprev, hlfu, hsLstack, hsLcache, _⟩ :=
    build_node_char_first s P rest x hstack hwk hPf
  unfold begin_end_leaf begin_node_id
  rw [hbuild]
  dsimp only
  obtain ⟨s3, p3, nf, hpop, hs3stack, hp3id, hp3first, hp3last, hp3nc,
      hnfid, hnfpar, hnfnext, _, _, hs3cache⟩ :=
    pop_leaf_char (push_parent sL n2) n2
      ({ P with first := x, last := x, n_children := P.n_children + 1}) rest
      (by simp [push_parent, hsLstack]) (by rw [hpar]; exact hPid)
  rw [hpop]
  refine ⟨s3, p3, nf, rfl, hs3stack, by simpa using hp3id,
    by simpa using hp3first, by simpa using hp3last, by simpa using hp3nc,
    hnfid.trans hid, hnfpar.trans hpar, hnfnext.trans hnext, ?_⟩
  rw [hs3cache, hid]
  show sL.cached_nodes.insert x nf = _
  rw [hsLcache]

/-- Declaring a further leaf child `x` under the stack-top parent whose chain
already ends at `P.last`. -/
theorem begin_end_leaf_append (s : State) (P : Node) (rest : List Node)
    (x : ℕ) (pl : Node)
    (hstack : s.node_stack = P :: rest) (hwk : well_keyed s.cached_nodes)
    (hPid : P.id ≠ 0) (hPf : P.first ≠ 0) (hPl : P.last ≠ 0) (hxl : P.last ≠ x)
    (hfindl : s.cached_nodes.find? P.last = some pl) :
    ∃ s3 P2 nf, begin_end_leaf s x = some s3
      ∧ s3.node_stack = P2 :: rest
      ∧ P2.id = P.id ∧ P2.first = P.first ∧ P2.last = x
      ∧ P2.n_children = P.n_children + 1
      ∧ nf.id = x ∧ nf.parent = P.id ∧ nf.next = 0
      ∧ s3.cached_nodes
          = ((s.cached_nodes.eraseKey x).insert P.last
              { pl with next := x }).insert x nf := by
  obtain ⟨n2, sL, hbuild, hid, hpar, hnext, hprev, hlfu, hsLstack, hsLcache, _⟩ :=
    build_node_char_append s P rest x pl hstack hwk hPf hPl hxl hfindl
  unfold begin_end_leaf begin_node_id
  rw [hbuild]
  dsimp only
  obtain ⟨s3, p3, nf, hpop, hs3stack, hp3id, hp3first, hp3last, hp3nc,
      hnfid, hnfpar, hnfnext, _, _, hs3cache⟩ :=
    pop_leaf_char (push_parent sL n2) n2
      ({ P with last := x, n_children := P.n_children + 1 }) rest
      (by simp [push_parent, hsLstack]) (by rw [hpar]; exact hPid)
  rw [hpop]
  refine ⟨s3, p3, nf, rfl, hs3stack, by simpa using hp3id,
    by simpa using hp3first, by simpa using hp3last, by simpa using hp3nc,
    hnfid.trans hid, hnfpar.trans hpar, hnfnext.trans hnext, ?_⟩
  rw [hs3cache, hid]
  show sL.cached_nodes.insert x nf = _
  rw [hsLcache]

/-- Invariant carried through a balanced run of leaf-child declarations: the
parent on the stack keeps its identity, its `first`/`last`/`n_children`
describe the chain `done ++ ids`, and the store holds a well-formed chain. -/
theorem build_children_linked :
    ∀ (ids done : List ℕ) (s : State) (P : Node) (rest : List Node)
      (s2 : State),
    s.node_stack = P :: rest →
    well_keyed s.cached_nodes →
    P.id ≠ 0 →
    (done ++ ids).Nodup →
    (0 : ℕ) ∉ done ++ ids →
    P.id ∉ done ++ ids →
    P.first = done.headI →
    P.last = done.getLast?.getD 0 →
    P.n_children = done.length →
    linked s.cached_nodes P.id done →
    build_children s ids = some s2 →
    ∃ P2, s2.node_stack = P2 :: rest ∧ P2.id = P.id
      ∧ P2.first = (done ++ ids).headI
      ∧ P2.last = (done ++ ids).getLast?.getD 0
      ∧ P2.n_children = (done ++ ids).length
      ∧ linked s2.cached_nodes P.id (done ++ ids)
      ∧ well_keyed s2.cached_nodes := by
  intro ids
  induction ids with
  | nil =>
    intro done s P rest s2 hstack hwk hPid hnd h0 hP hfir hlas hnc hlink hb
    simp only [build_children, Option.some.injEq] at hb
    subst hb
    exact ⟨P, hstack, rfl, by simpa using hfir, by simpa using hlas,
      by simpa using hnc, by simpa using hlink, hwk⟩
  | cons x xs ih =>
    intro done s P rest s2 hstack hwk hPid hnd h0 hP hfir hlas hnc hlink hb
    have hx0 : x ≠ 0 := by
      intro hh
      exact h0 (List.mem_append.mpr (Or.inr (hh ▸ List.mem_cons_self x xs)))
    have hnd3 := List.nodup_append.mp hnd
    have hxdone : x ∉ done := by
      intro hh
      exact hnd3.2.2 hh (List.mem_cons_self x xs)
    rcases hdc : done with _ | ⟨d, ds⟩
    · subst hdc
      have hPf : P.first = 0 := by simpa using hfir
      obtain ⟨s3, P2, nf, hstep, hstk2, hid2, hfirst2, hlast2, hnc2, hnfid,
          hnfpar, hnfnext, hcache2⟩ :=
        begin_end_leaf_first s P rest x hstack hwk hPid hPf
      unfold build_children at hb
      rw [hstep] at hb
      dsimp only at hb
      have hwk3 : well_keyed s3.cached_nodes := by
        rw [hcache2]
        exact well_keyed_insert _ x nf
          (well_keyed_eraseKey s.cached_nodes x hwk) hnfid
      have hlink3 : linked s3.cached_nodes P2.id [x] := by
        refine ⟨nf, ?_, ?_, by simpa using hnfnext, trivial⟩
        · rw [hcache2]
          exact NodeMap.find?_insert_self _ _ _
        · rw [hnfpar, hid2]
      obtain ⟨P3, c1, c2, c3, c4, c5, c6, c7⟩ :=
        ih [x] s3 P2 rest s2 hstk2 hwk3 (by rw [hid2]; exact hPid)
          (by simpa using hnd) (by simpa using h0)
          (by rw [hid2]; simpa using hP) (by simpa using hfirst2)
          (by simpa using hlast2)
          (by rw [hnc2]; simp at hnc; simp [hnc])
          hlink3 hb
      rw [hid2] at c2 c6
      exact ⟨P3, c1, c2, c3, c4, c5, c6, c7⟩
    · subst hdc
      have hPf : P.first ≠ 0 := by
        rw [hfir]
        intro hh
        exact h0 (List.mem_append.mpr (Or.inl (by rw [← hh]; exact List.mem_cons_self d ds)))
      have hlastmem : P.last ∈ d :: ds := by
        rw [hlas, @List.getLast?_eq_getLast_of_ne_nil ℕ (d :: ds) (by simp),
          Option.getD_some]
        exact List.getLast_mem (by simp)
      have hPl : P.last ≠ 0 := by
        intro hh
        exact h0 (List.mem_append.mpr (Or.inl (hh ▸ hlastmem)))
      have hxl : P.last ≠ x := by
        intro hh
        exact hxdone (hh ▸ hlastmem)
      obtain ⟨pl, hfindl, hplpar⟩ :=
        linked_mem s.cached_nodes P.id (d :: ds) hlink P.last hlastmem
      obtain ⟨s3, P2, nf, hstep, hstk2, hid2, hfirst2, hlast2, hnc2, hnfid,
          hnfpar, hnfnext, hcache2⟩ :=
        begin_end_leaf_append s P rest x pl hstack hwk hPid hPf hPl hxl hfindl
      unfold build_children at hb
      rw [hstep] at hb
      dsimp only at hb
      have hwk3 : well_keyed s3.cached_nodes := by
        rw [hcache2]
        refine well_keyed_insert _ x nf ?_ hnfid
        refine well_keyed_insert _ P.last _ ?_ ?_
        · exact well_keyed_eraseKey s.cached_nodes x hwk
        · simpa using hwk P.last pl hfindl
      have hlink3 : linked s3.cached_nodes P.id ((d :: ds) ++ [x]) := by
        rw [hcache2]
        refine linked_snoc P.id x nf (d :: ds) s.cached_nodes _ hlink
          hnd3.1 hxdone ?_ ?_ (NodeMap.find?_insert_self _ _ _) hnfpar hnfnext
        · intro j hj hjlast
          have hjx : j ≠ x := fun hh => hxdone (hh ▸ hj)
          have hjl : j ≠ P.last := by
            rw [hlas]
            exact hjlast
          rw [NodeMap.find?_insert_ne _ _ _ _ hjx,
            NodeMap.find?_insert_ne _ _ _ _ hjl,
            NodeMap.find?_eraseKey_ne _ _ _ hjx]
        · intro _ nl hnl
          rw [← hlas] at hnl ⊢
          have hnlpl : nl = pl := by
            rw [hfindl] at hnl
            exact (Option.some.injEq _ _).mp hnl.symm
          subst hnlpl
          rw [NodeMap.find?_insert_ne _ _ _ _ hxl]
          exact NodeMap.find?_insert_self _ _ _
      have hlink3b : linked s3.cached_nodes P2.id ((d :: ds) ++ [x]) := by
        rw [hid2]
        exact hlink3
      obtain ⟨P3, c1, c2, c3, c4, c5, c6, c7⟩ :=
        ih ((d :: ds) ++ [x]) s3 P2 rest s2 hstk2 hwk3
          (by rw [hid2]; exact hPid)
          (by simpa [List.append_assoc] using hnd)
          (by simpa [List.append_assoc] using h0)
          (by rw [hid2]; simpa [List.append_assoc] using hP)
          (by simpa using (hfirst2.trans hfir))
          (by rw [hlast2, @List.getLast?_append_of_ne_nil ℕ (d :: ds) [x] (by simp)]; rfl)
          (by rw [hnc2, hnc]; simp)
          hlink3b hb
      rw [hid2] at c2 c6
      rw [List.append_assoc] at c3 c4 c5 c6
      exact ⟨P3, c1, c2, c3, c4, c5, c6, c7⟩

/-- Claim C10 (amended): after a balanced sequence of leaf-child declarations
with pairwise-distinct non-NULL ids, all different from the parent's id,
under one fresh parent on the build stack, the parent's links form a valid
chain: following `next` from `first` visits exactly the declared children in
declaration order with no cycles (`Chain`), `last` is the final child,
`n_children` counts them, and every child's `parent` field is the parent's
id.  The distinctness restriction is forced by the counterexample below: a
repeated sibling identity (a spec-legal collision) breaks the invariant. -/
theorem c10_child_links (ids : List ℕ) (P : Node) (rest : List Node)
    (s s2 : State)
    (hstack : s.node_stack = P :: rest)
    (hwk : well_keyed s.cached_nodes)
    (hPid : P.id ≠ 0) (hfr : P.first = 0) (hls : P.last = 0)
    (hnc : P.n_children = 0)
    (hnd : ids.Nodup) (h0 : (0 : ℕ) ∉ ids) (hP : P.id ∉ ids)
    (hb : build_children s ids = some s2) :
    ∃ P2, s2.node_stack = P2 :: rest ∧ P2.id = P.id
      ∧ P2.first = ids.headI
      ∧ P2.last = ids.getLast?.getD 0
      ∧ P2.n_children = ids.length
      ∧ Chain s2.cached_nodes P2.first ids
      ∧ ∀ j ∈ ids, ∃ nj, s2.cached_nodes.find? j = some nj
          ∧ nj.parent = P.id := by
  obtain ⟨P2, c1, c2, c3, c4, c5, c6, c7⟩ :=
    build_children_linked ids [] s P rest s2 hstack hwk hPid
      (by simpa using hnd) (by simpa using h0) (by simpa using hP)
      (by simpa using hfr) (by simpa using hls) (by simpa using hnc)
      trivial hb
  simp only [List.nil_append] at c3 c4 c5 c6
  refine ⟨P2, c1, c2, c3, c4, c5, ?_, ?_⟩
  · rw [c3]
    exact chain_of_linked s2.cached_nodes P.id ids c6 h0
  · exact linked_mem s2.cached_nodes P.id ids c6

/-- A session holding one fresh parent (id 1) on the build stack. -/
def c10s : State := { state0 with node_stack := [{ Node.NULL with id := 1 }] }

/-- Witness for C10: children with ids 2 and 3 declared under parent 1. -/
theorem c10_witness :
    ∃ P2, ((build_children c10s [2, 3]).getD state0).node_stack = P2 :: []
      ∧ P2.id = ({ Node.NULL with id := 1 } : Node).id
      ∧ P2.first = ([2, 3] : List ℕ).headI
      ∧ P2.last = ([2, 3] : List ℕ).getLast?.getD 0
      ∧ P2.n_children = ([2, 3] : List ℕ).length
      ∧ Chain ((build_children c10s [2, 3]).getD state0).cached_nodes
          P2.first [2, 3]
      ∧ ∀ j ∈ ([2, 3] : List ℕ),
          ∃ nj, ((build_children c10s [2, 3]).getD state0).cached_nodes.find? j
              = some nj ∧ nj.parent = ({ Node.NULL with id := 1 } : Node).id :=
  c10_child_links [2, 3] { Node.NULL with id := 1 } [] c10s
    ((build_children c10s [2, 3]).getD state0) rfl
    (by intro k n h; exact Option.noConfusion h) (by decide) rfl rfl rfl
    (by decide) (by decide) (by decide) rfl

/-- The session after declaring children 2, 3, 2 — a duplicated sibling
identity — under parent 1. -/
def c10dup : State := (build_children c10s [2, 3, 2]).getD state0

/-- Claim C10 counterexample: duplicate sibling identities are legal balanced
input (the same scope and label collide intentionally per the data model) and
refute the claim.  Declaring children 2, 3, 2 under parent 1 completes
without panic and leaves `n_children = 3` with `first = last = 2`, but the
third begin takes node 2 back out of the store and rebuilds it with
`next = 0`, so following `next` from `first` visits only node 2 — the walk is
`Chain _ 2 [2]` and not the chain `[2, 3, 2]` of the three children created
in declaration order.  Adjacent duplicates 2, 2 do not even complete: the
second begin removes node 2 from the store and then panics unwrapping the
previous sibling's lookup. -/
theorem c10_counterexample :
    ((build_children c10s [2, 3, 2]).map
        (fun s => s.node_stack.map (fun p => (p.first, p.last, p.n_children)))
      = some [(2, 2, 3)])
    ∧ Chain c10dup.cached_nodes 2 [2]
    ∧ ¬ Chain c10dup.cached_nodes 2 [2, 3, 2]
    ∧ build_children c10s [2, 2] = none := by
  refine ⟨by decide, Chain.cons (by decide) rfl Chain.nil, ?_, by decide⟩
  intro h
  rcases h with _ | ⟨hne, hfind, htail⟩
  have hx : (c10dup.cached_nodes.find? 2).map (fun m => m.next) = some 0 := by
    decide
  rw [hfind, Option.map_some'] at hx
  have hnx := Option.some.inj hx
  rw [hnx] at htail
  cases htail

end WGPUI
